import Mathlib

/-!
Verification of the sshfsman repository against its specification.

The repository has two implementations:
* `src/sshfsman/cli.py` — the config-driven CLI (findmnt-based mount oracle,
  shortcut store, prune logic);
* `sshfsman.py` — a legacy standalone script (/proc/mounts substring check).

Python strings are modelled as Lean `String`, filesystem paths either as
rendered strings or as lists of path components (the parts of an absolute
path), and external-world behaviour (findmnt, /proc/mounts, rmdir, the
sshfs helper) as explicit environment records passed to each function.
-/

namespace Sshfsman

/-- Model of Python `str.strip(<set>)` on a list of characters: drop the
characters satisfying `p` from the front, then from the back. -/
def pyStripWith (p : Char → Bool) (l : List Char) : List Char :=
  List.rdropWhile p (l.dropWhile p)

/-- Model of Python `str.strip()` (no argument: whitespace) on a character
list. -/
def pyStripL (l : List Char) : List Char := pyStripWith Char.isWhitespace l

/-- Model of Python `str.strip()` on `String`. -/
def pyStrip (s : String) : String := ⟨pyStripL s.data⟩

/-- Python truthiness of an optional string (`None` and `""` are falsy). -/
def truthy : Option String → Bool
  | none => false
  | some s => s ≠ ""

/-- Python `a or b` over optional strings, by truthiness. -/
def orElseTruthy (a b : Option String) : Option String :=
  if truthy a then a else b

/-- The character class `[A-Za-z0-9._-]` accepted by the mount-dir sanitizer
(`cli.py`, `_sanitize_mount_dir`). -/
def allowedChar (c : Char) : Bool :=
  ('A' ≤ c && c ≤ 'Z') || ('a' ≤ c && c ≤ 'z') || ('0' ≤ c && c ≤ '9') ||
  c = '.' || c = '_' || c = '-'

/-- Transducer for `re.sub(r"[^A-Za-z0-9._-]+", "_", ·)`; the flag records
whether the previous character was part of a (already replaced) disallowed
run. -/
def subRunsGo : Bool → List Char → List Char
  | _, [] => []
  | inRun, c :: cs =>
    if allowedChar c then c :: subRunsGo false cs
    else
      match inRun with
      | true => subRunsGo true cs
      | false => '_' :: subRunsGo true cs

/-- `re.sub(r"[^A-Za-z0-9._-]+", "_", ·)`: each maximal run of disallowed
characters becomes a single underscore. -/
def subDisallowedRuns (l : List Char) : List Char := subRunsGo false l

/-- Transducer for `re.sub(r"_+", "_", ·)`; the flag records whether the
previous character was an underscore. -/
def collapseGo : Bool → List Char → List Char
  | _, [] => []
  | inRun, c :: cs =>
    if c = '_' then
      match inRun with
      | true => collapseGo true cs
      | false => '_' :: collapseGo true cs
    else c :: collapseGo false cs

/-- `re.sub(r"_+", "_", ·)`: each maximal run of underscores becomes a single
underscore. -/
def collapseUnderscoreRuns (l : List Char) : List Char := collapseGo false l

/-- A character stripped by Python `str.strip("_.-")`. -/
def stripSetChar (c : Char) : Bool := c = '_' || c = '.' || c = '-'

/-- Python `str.strip("_.-")` on a character list. -/
def stripUnderscoreDotDash (l : List Char) : List Char :=
  pyStripWith stripSetChar l

/-- `cli.py` `_sanitize_mount_dir`: strip whitespace; empty becomes "mount";
replace disallowed runs with `_`; collapse `_` runs; strip `_ . -` from both
ends; empty again becomes "mount". -/
def sanitize_mount_dir (name : String) : String :=
  let n := pyStripL name.data
  if n.isEmpty then "mount"
  else
    let r := stripUnderscoreDotDash (collapseUnderscoreRuns (subDisallowedRuns n))
    if r.isEmpty then "mount" else ⟨r⟩

example : sanitize_mount_dir "" = "mount" := by decide
example : sanitize_mount_dir "a//b" = "a_b" := by decide
example : sanitize_mount_dir "._-" = "mount" := by decide
example : sanitize_mount_dir "  a  b " = "a_b" := by decide

/-! Structural facts about the sanitizer, leading to totality and
idempotence. -/

/-- No two adjacent characters are both underscores. -/
def NoDoubleUnderscore (l : List Char) : Prop :=
  List.Chain' (fun a b => ¬(a = '_' ∧ b = '_')) l

lemma allowed_of_mem_subRunsGo :
    ∀ (b : Bool) (l : List Char) (c : Char), c ∈ subRunsGo b l → allowedChar c = true := by
  intro b l
  induction l generalizing b with
  | nil => intro c h; simp [subRunsGo] at h
  | cons a as ih =>
    intro c h
    by_cases ha : allowedChar a = true
    · simp only [subRunsGo, ha, if_true, List.mem_cons] at h
      rcases h with rfl | h
      · exact ha
      · exact ih false c h
    · cases b with
      | true =>
        simp only [subRunsGo, ha, Bool.false_eq_true, if_false] at h
        exact ih true c h
      | false =>
        simp only [subRunsGo, ha, Bool.false_eq_true, if_false, List.mem_cons] at h
        rcases h with rfl | h
        · decide
        · exact ih true c h

lemma subRunsGo_eq_self (l : List Char) (hl : ∀ c ∈ l, allowedChar c = true) (b : Bool) :
    subRunsGo b l = l := by
  induction l generalizing b with
  | nil => rfl
  | cons a as ih =>
    have ha : allowedChar a = true := hl a (by simp)
    simp only [subRunsGo, ha, if_true]
    rw [ih (fun c hc => hl c (by simp [hc])) false]

lemma collapseGo_cons_ne (b : Bool) {a : Char} (ha : a ≠ '_') (as : List Char) :
    collapseGo b (a :: as) = a :: collapseGo false as := by
  cases b <;> rw [collapseGo, if_neg ha]

lemma collapseGo_true_cons_us (as : List Char) :
    collapseGo true ('_' :: as) = collapseGo true as := by
  rw [collapseGo, if_pos rfl]

lemma collapseGo_false_cons_us (as : List Char) :
    collapseGo false ('_' :: as) = '_' :: collapseGo true as := by
  rw [collapseGo, if_pos rfl]

lemma allowed_of_mem_collapseGo :
    ∀ (b : Bool) (l : List Char), (∀ c ∈ l, allowedChar c = true) →
      ∀ c ∈ collapseGo b l, allowedChar c = true := by
  intro b l
  induction l generalizing b with
  | nil => intro _ c h; simp [collapseGo] at h
  | cons a as ih =>
    intro hl c h
    have has : ∀ c ∈ as, allowedChar c = true := fun c hc => hl c (by simp [hc])
    by_cases ha : a = '_'
    · subst ha
      cases b with
      | true =>
        rw [collapseGo, if_pos rfl] at h
        exact ih true has c h
      | false =>
        rw [collapseGo, if_pos rfl] at h
        rcases List.mem_cons.mp h with rfl | h
        · decide
        · exact ih true has c h
    · rw [collapseGo_cons_ne b ha] at h
      rcases List.mem_cons.mp h with rfl | h
      · exact hl c (by simp)
      · exact ih false has c h

lemma collapseGo_true_head_ne (l : List Char) :
    ∀ x ∈ (collapseGo true l).head?, x ≠ '_' := by
  induction l with
  | nil => simp [collapseGo]
  | cons a as ih =>
    by_cases ha : a = '_'
    · subst ha
      rw [collapseGo, if_pos rfl]
      exact ih
    · intro x hx
      rw [collapseGo, if_neg ha] at hx
      simp only [List.head?_cons, Option.mem_def, Option.some.injEq] at hx
      subst hx; exact ha

lemma chain_collapseGo (b : Bool) (l : List Char) :
    NoDoubleUnderscore (collapseGo b l) := by
  induction l generalizing b with
  | nil => simp [collapseGo, NoDoubleUnderscore]
  | cons a as ih =>
    by_cases ha : a = '_'
    · subst ha
      cases b with
      | true =>
        rw [collapseGo, if_pos rfl]
        exact ih true
      | false =>
        rw [collapseGo, if_pos rfl]
        show List.Chain' _ ('_' :: collapseGo true as)
        rw [List.chain'_cons']
        refine ⟨?_, ih true⟩
        intro y hy
        have := collapseGo_true_head_ne as y hy
        simp [this]
    · rw [collapseGo_cons_ne b ha]
      show List.Chain' _ (a :: collapseGo false as)
      rw [List.chain'_cons']
      refine ⟨?_, ih false⟩
      intro y _
      simp [ha]

lemma collapseGo_eq_self (l : List Char) (h : NoDoubleUnderscore l) :
    collapseGo false l = l ∧ ((∀ x ∈ l.head?, x ≠ '_') → collapseGo true l = l) := by
  induction l with
  | nil => exact ⟨rfl, fun _ => rfl⟩
  | cons a as ih =>
    rw [NoDoubleUnderscore, List.chain'_cons'] at h
    obtain ⟨h1, h2⟩ := h
    obtain ⟨ihf, iht⟩ := ih h2
    constructor
    · by_cases ha : a = '_'
      · subst ha
        rw [collapseGo, if_pos rfl]
        show '_' :: collapseGo true as = '_' :: as
        have hx : ∀ x ∈ as.head?, x ≠ '_' := fun x hx hx' => h1 x hx ⟨rfl, hx'⟩
        rw [iht hx]
      · rw [collapseGo, if_neg ha]
        show a :: collapseGo false as = a :: as
        rw [ihf]
    · intro hh
      have ha : a ≠ '_' := hh a (by simp)
      rw [collapseGo, if_neg ha]
      show a :: collapseGo false as = a :: as
      rw [ihf]

lemma mem_pyStripWith {p : Char → Bool} {l : List Char} {c : Char}
    (h : c ∈ pyStripWith p l) : c ∈ l := by
  have hp2 := List.rdropWhile_prefix p (l.dropWhile p)
  have h1 : c ∈ l.dropWhile p := hp2.sublist.subset h
  exact (List.dropWhile_suffix p).sublist.subset h1

lemma chain_pyStripWith {p : Char → Bool} {l : List Char} (h : NoDoubleUnderscore l) :
    NoDoubleUnderscore (pyStripWith p l) := by
  have hp2 := List.rdropWhile_prefix p (l.dropWhile p)
  exact List.Chain'.prefix (h.suffix (List.dropWhile_suffix p)) hp2

lemma pyStripWith_head_not {p : Char → Bool} {l : List Char} :
    ∀ x ∈ (pyStripWith p l).head?, p x = false := by
  intro x hx
  obtain ⟨t, ht⟩ := List.rdropWhile_prefix p (l.dropWhile p)
  rw [pyStripWith] at hx
  cases hy : List.rdropWhile p (l.dropWhile p) with
  | nil => rw [hy] at hx; simp at hx
  | cons y ys =>
    rw [hy] at hx
    simp only [List.head?_cons, Option.mem_def, Option.some.injEq] at hx
    subst hx
    rw [hy] at ht
    have hde : l.dropWhile p = y :: (ys ++ t) := ht.symm
    have h2 := List.head?_dropWhile_not p l
    rw [hde] at h2
    simpa using h2

lemma pyStripWith_last_not {p : Char → Bool} {l : List Char}
    (h : pyStripWith p l ≠ []) : p ((pyStripWith p l).getLast h) = false := by
  have := List.rdropWhile_last_not p (l.dropWhile p) (by simpa [pyStripWith] using h)
  simpa [pyStripWith] using this

lemma pyStripWith_eq_self {p : Char → Bool} {l : List Char}
    (hh : ∀ x ∈ l.head?, p x = false)
    (hl : ∀ (h : l ≠ []), p (l.getLast h) = false) : pyStripWith p l = l := by
  have h1 : l.dropWhile p = l := by
    rw [List.dropWhile_eq_self_iff]
    intro hlen
    cases l with
    | nil => simp at hlen
    | cons a as => simpa using hh a rfl
  rw [pyStripWith, h1, List.rdropWhile_eq_self_iff]
  intro hne
  simpa using hl hne

lemma allowed_not_ws {c : Char} (h : allowedChar c = true) : c.isWhitespace = false := by
  by_contra hw
  have hw' : c.isWhitespace = true := by simpa using hw
  have hc : ((c = ' ' ∨ c = '\t') ∨ c = '\r') ∨ c = '\n' := by
    simpa [Char.isWhitespace] using hw'
  rcases hc with ((rfl | rfl) | rfl) | rfl <;> revert h <;> decide

/-- A nonempty list of allowed characters with no doubled underscore and no
`_`/`.`/`-` at either end is a fixed point of the sanitizer. -/
lemma sanitize_fixed (r : List Char) (hne : r ≠ [])
    (hall : ∀ c ∈ r, allowedChar c = true)
    (hnd : NoDoubleUnderscore r)
    (hh : ∀ x ∈ r.head?, stripSetChar x = false)
    (hl : ∀ (h : r ≠ []), stripSetChar (r.getLast h) = false) :
    sanitize_mount_dir ⟨r⟩ = ⟨r⟩ := by
  have hstrip : pyStripL r = r := by
    refine pyStripWith_eq_self ?_ ?_
    · intro x hx
      exact allowed_not_ws (hall x (List.mem_of_mem_head? hx))
    · intro h
      exact allowed_not_ws (hall _ (List.getLast_mem h))
  have hsub : subDisallowedRuns r = r := subRunsGo_eq_self r hall false
  have hcol : collapseUnderscoreRuns r = r := (collapseGo_eq_self r hnd).1
  have hstr : stripUnderscoreDotDash r = r := pyStripWith_eq_self hh hl
  have hie : r.isEmpty = false := by
    cases r with
    | nil => exact absurd rfl hne
    | cons a as => rfl
  show (let n := pyStripL (⟨r⟩ : String).data;
    if n.isEmpty then "mount"
    else
      let r2 := stripUnderscoreDotDash (collapseUnderscoreRuns (subDisallowedRuns n));
      if r2.isEmpty then "mount" else ⟨r2⟩) = ⟨r⟩
  have hdata : (⟨r⟩ : String).data = r := rfl
  simp only [hdata, hstrip, hsub, hcol, hstr, hie, Bool.false_eq_true, if_false]

/-- Totality and idempotence of the sanitizer, for every input string. -/
lemma sanitize_props (x : String) :
    (sanitize_mount_dir x).data ≠ [] ∧
    (∀ c ∈ (sanitize_mount_dir x).data, allowedChar c = true) ∧
    sanitize_mount_dir (sanitize_mount_dir x) = sanitize_mount_dir x := by
  have hmount : sanitize_mount_dir "mount" = "mount" := by decide
  have hshape : sanitize_mount_dir x =
      (let n := pyStripL x.data;
       if n.isEmpty then "mount"
       else
         let r2 := stripUnderscoreDotDash (collapseUnderscoreRuns (subDisallowedRuns n));
         if r2.isEmpty then "mount" else ⟨r2⟩) := rfl
  by_cases h0 : (pyStripL x.data).isEmpty
  · rw [hshape]
    simp only [h0, if_true]
    exact ⟨by decide, by decide, hmount⟩
  · have hr : sanitize_mount_dir x =
        (if (stripUnderscoreDotDash (collapseUnderscoreRuns
              (subDisallowedRuns (pyStripL x.data)))).isEmpty
         then "mount"
         else ⟨stripUnderscoreDotDash (collapseUnderscoreRuns
              (subDisallowedRuns (pyStripL x.data)))⟩) := by
      rw [hshape]
      simp only [h0, Bool.false_eq_true, if_false]
    by_cases h1 : (stripUnderscoreDotDash (collapseUnderscoreRuns
        (subDisallowedRuns (pyStripL x.data)))).isEmpty
    · rw [hr]
      simp only [h1, if_true]
      exact ⟨by decide, by decide, hmount⟩
    · rw [hr]
      simp only [h1, Bool.false_eq_true, if_false]
      have hne : stripUnderscoreDotDash (collapseUnderscoreRuns
          (subDisallowedRuns (pyStripL x.data))) ≠ [] := by
        intro hc
        rw [hc] at h1
        exact h1 rfl
      have hall : ∀ c ∈ stripUnderscoreDotDash (collapseUnderscoreRuns
          (subDisallowedRuns (pyStripL x.data))), allowedChar c = true := by
        intro c hc
        have hc1 : c ∈ collapseUnderscoreRuns (subDisallowedRuns (pyStripL x.data)) :=
          mem_pyStripWith hc
        exact allowed_of_mem_collapseGo false _
          (fun d hd => allowed_of_mem_subRunsGo false _ d hd) c hc1
      have hnd : NoDoubleUnderscore (stripUnderscoreDotDash (collapseUnderscoreRuns
          (subDisallowedRuns (pyStripL x.data)))) :=
        chain_pyStripWith (chain_collapseGo false _)
      refine ⟨hne, hall, ?_⟩
      exact sanitize_fixed _ hne hall hnd pyStripWith_head_not pyStripWith_last_not

/-- C9: the directory-name sanitizer is total and idempotent: for every
input string the result is a nonempty name over `[A-Za-z0-9._-]`,
sanitizing twice equals sanitizing once, `""` maps to `"mount"` and
`"a//b"` maps to `"a_b"`. -/
theorem C9_sanitize_total_idempotent (x : String) :
    sanitize_mount_dir (sanitize_mount_dir x) = sanitize_mount_dir x ∧
    sanitize_mount_dir x ≠ "" ∧
    (∀ c ∈ (sanitize_mount_dir x).data, allowedChar c = true) ∧
    sanitize_mount_dir "" = "mount" ∧
    sanitize_mount_dir "a//b" = "a_b" := by
  obtain ⟨h1, h2, h3⟩ := sanitize_props x
  refine ⟨h3, ?_, h2, by decide, by decide⟩
  intro hc
  exact h1 (by rw [hc])

/-- C9 witness: idempotence and the allowed alphabet evaluated at the
concrete input `"a//b"`. -/
theorem C9_witness :
    sanitize_mount_dir (sanitize_mount_dir "a//b") = sanitize_mount_dir "a//b" ∧
    allowedChar 'a' = true :=
  ⟨(C9_sanitize_total_idempotent "a//b").1,
   (C9_sanitize_total_idempotent "a//b").2.2.1 'a' (by decide)⟩

/-! ### Remote endpoint parsing and address resolution (`cli.py`) -/

/-- Split a character list at every occurrence of `sep`; `acc` holds the
(reversed) current field. -/
def splitCharGo (sep : Char) : List Char → List Char → List (List Char)
  | acc, [] => [acc.reverse]
  | acc, c :: cs =>
    if c = sep then acc.reverse :: splitCharGo sep [] cs
    else splitCharGo sep (c :: acc) cs

/-- Python `str.split(sep)` for a single-character separator. -/
def splitStr (sep : Char) (s : String) : List String :=
  (splitCharGo sep [] s.data).map (fun l => ⟨l⟩)

/-- Join fields with a single-character separator (inverse of
`splitStr`). -/
def joinSep (sep : Char) : List String → String
  | [] => ""
  | [x] => x
  | x :: xs => x ++ ⟨[sep]⟩ ++ joinSep sep xs

/-- Python `s.split(sep, 1)`: the part before the first occurrence of the
separator, and the remainder (`none` when the separator does not occur). -/
def splitOnce (sep : Char) (s : String) : String × Option String :=
  match splitStr sep s with
  | [] => (s, none)
  | [_] => (s, none)
  | p :: ps => (p, some (joinSep sep ps))

/-- Python `str.isdigit()` (ASCII digits): nonempty and all characters
decimal digits. -/
def pyIsdigit (s : String) : Bool :=
  !s.data.isEmpty && s.data.all (fun c => '0' ≤ c && c ≤ '9')

/-- Python `int(...)` on a decimal digit string. -/
def pyInt (s : String) : Nat :=
  s.data.foldl (fun acc c => acc * 10 + (c.toNat - '0'.toNat)) 0

/-- `cli.py` `_is_ipv4`: after stripping, the string matches
`^\d{1,3}\.\d{1,3}\.\d{1,3}\.\d{1,3}$` and every group is at most 255. -/
def is_ipv4 (s : String) : Bool :=
  let parts := splitStr '.' (pyStrip s)
  parts.length == 4 &&
    parts.all (fun p => pyIsdigit p && decide (p.length ≤ 3) && decide (pyInt p ≤ 255))

/-- `cli.py` `_replace_last_octet`: replace the last octet of a well-formed
IPv4 address with `last` when `last` is a digit string with value at most
255; otherwise return the address unchanged. The wildcard branch of the
final match is unreachable (`is_ipv4` guarantees four groups). -/
def replace_last_octet (ip : String) (last : String) : String :=
  if !is_ipv4 ip then ip
  else if !pyIsdigit last then ip
  else if !decide (pyInt last ≤ 255) then ip
  else
    match splitStr '.' ip with
    | [a, b, c, _] => a ++ "." ++ b ++ "." ++ c ++ "." ++ toString (pyInt last)
    | _ => ip

/-- First character of a string is `/`, modelling Python
`str.startswith("/")`. -/
def startsWithSlash (s : String) : Bool := s.data.head? == some '/'

/-- `cli.py` `_parse_remote`: require a colon, split at the first one,
require both sides nonempty, and prepend a leading slash to the path if
missing. -/
def parse_remote (remote : String) : Except String (String × String) :=
  match splitOnce ':' remote with
  | (_, none) => .error "remote must be in the form user@host:/path"
  | (left, some right) =>
    if left = "" || right = "" then .error "remote must be in the form user@host:/path"
    else if startsWithSlash right then .ok (left, right)
    else .ok (left, "/" ++ right)

/-- The `user@` part (including the `@`) of a `[user@]host` fragment, empty
when there is no `@`. -/
def userPrefix (userhost : String) : String :=
  match splitOnce '@' userhost with
  | (_, none) => ""
  | (u, some _) => u ++ "@"

/-- The host part of a `[user@]host` fragment. -/
def hostPart (userhost : String) : String :=
  match splitOnce '@' userhost with
  | (_, none) => userhost
  | (_, some rest) => rest

/-- `cli.py` `Shortcut`: a named persisted mount template. -/
structure Shortcut where
  name : String
  id : String
  remote : String
  mount_dir : String
  port : Option Nat := none
  identity : Option String := none
  options : List String := []
  readonly : Bool := false
  no_reconnect_defaults : Bool := false
deriving DecidableEq

/-- `cli.py` `_build_remote_from_shortcut`: with no (or empty) override the
stored remote is returned verbatim; otherwise the host is rewritten when it
is IPv4 (last octet) or when a default subnet applies, and reassembled. -/
def build_remote_from_shortcut (sc : Shortcut) (id_override : Option String)
    (default_subnet : Option String) : Except String String :=
  let remote := sc.remote
  if !truthy id_override then .ok remote
  else
    let ov := id_override.getD ""
    match parse_remote remote with
    | .error e => .error e
    | .ok (userhost, path) =>
      let host := pyStrip (hostPart userhost)
      let new_host :=
        if is_ipv4 host then replace_last_octet host ov
        else if truthy default_subnet && pyIsdigit ov then
          if decide (pyInt ov ≤ 255) then (default_subnet.getD "") ++ "." ++ toString (pyInt ov)
          else host
        else host
      .ok (userPrefix userhost ++ new_host ++ ":" ++ path)

/-- Last component of a POSIX path string, modelling `Path(path).name`. -/
def pathName (p : String) : String :=
  ((splitStr '/' p).filter (fun s => s ≠ "")).getLast?.getD ""

/-- `cli.py` `_infer_mount_dir_from_remote`. -/
def infer_mount_dir_from_remote (remote : String) : Except String String := do
  let (userhost, path) ← parse_remote remote
  let host :=
    match splitOnce '@' userhost with
    | (_, none) => userhost
    | (_, some rest) => rest
  let base := pathName path
  let base := if base = "" then host else base
  pure (sanitize_mount_dir base)

example : is_ipv4 "192.0.2.10" = true := by decide
example : is_ipv4 "999.0.2.10" = false := by decide
example : is_ipv4 "myhost.example" = false := by decide
example : replace_last_octet "192.0.2.10" "42" = "192.0.2.42" := by decide
example : replace_last_octet "192.0.2.10" "300" = "192.0.2.10" := by decide
example : parse_remote "u@h:/p" = .ok ("u@h", "/p") := rfl
example : parse_remote "u@h:p" = .ok ("u@h", "/p") := rfl
example : parse_remote "nocolon" = .error "remote must be in the form user@host:/path" := rfl
example : parse_remote "h:/p:q" = .ok ("h", "/p:q") := rfl
example : infer_mount_dir_from_remote "u@h:/sdcard" = .ok "sdcard" := rfl

/-! ### Facts about splitting and stripping, used for C7 and C8 -/

lemma splitCharGo_not_mem {sep : Char} :
    ∀ (l acc : List Char), sep ∉ l → splitCharGo sep acc l = [acc.reverse ++ l] := by
  intro l
  induction l with
  | nil => intro acc _; simp [splitCharGo]
  | cons c cs ih =>
    intro acc h
    have hc : c ≠ sep := fun hc => h (by simp [hc])
    have hcs : sep ∉ cs := fun hm => h (by simp [hm])
    rw [splitCharGo, if_neg hc, ih (c :: acc) hcs]
    simp

lemma splitStr_of_not_mem {sep : Char} {s : String} (h : sep ∉ s.data) :
    splitStr sep s = [s] := by
  rw [splitStr, splitCharGo_not_mem s.data [] h]
  rfl

lemma splitOnce_of_not_mem {sep : Char} {s : String} (h : sep ∉ s.data) :
    splitOnce sep s = (s, none) := by
  rw [splitOnce, splitStr_of_not_mem h]

lemma pyStripWith_idem (p : Char → Bool) (l : List Char) :
    pyStripWith p (pyStripWith p l) = pyStripWith p l :=
  pyStripWith_eq_self pyStripWith_head_not pyStripWith_last_not

lemma pyStrip_idem (s : String) : pyStrip (pyStrip s) = pyStrip s := by
  have h : pyStripWith Char.isWhitespace (pyStripWith Char.isWhitespace s.data) =
      pyStripWith Char.isWhitespace s.data := pyStripWith_idem _ _
  show (⟨pyStripWith Char.isWhitespace (pyStripWith Char.isWhitespace s.data)⟩ : String) =
    ⟨pyStripWith Char.isWhitespace s.data⟩
  rw [h]

lemma is_ipv4_parts {s : String} (h : is_ipv4 s = true) :
    ∃ a b c d, splitStr '.' (pyStrip s) = [a, b, c, d] := by
  rw [is_ipv4] at h
  have hlen : (splitStr '.' (pyStrip s)).length = 4 := by
    have h1 := (Bool.and_eq_true _ _).mp h |>.1
    simpa using h1
  rcases hp : splitStr '.' (pyStrip s) with _ | ⟨a, _ | ⟨b, _ | ⟨c, _ | ⟨d, _ | ⟨e, t⟩⟩⟩⟩⟩ <;>
    rw [hp] at hlen <;> simp at hlen
  exact ⟨a, b, c, d, rfl⟩

/-- C8 counterexample: a remote with two colons is accepted by the parser
(split at the first colon), so "must contain exactly one `:`" fails. -/
theorem C8_counterexample :
    parse_remote "h:/p:q" = .ok ("h", "/p:q") ∧ "h:/p:q".data.count ':' = 2 :=
  ⟨rfl, by decide⟩

/-- C8 (amended): a remote must contain at least one colon — absence of `:`
is a FormatError; an accepted remote is split at the first colon into a
nonempty `[user@]host` part and a nonempty remainder, and the returned path
gets a leading `/` prepended when the remainder lacks one. -/
theorem C8_parse_remote (remote : String) :
    (':' ∉ remote.data →
      parse_remote remote = .error "remote must be in the form user@host:/path") ∧
    (∀ uh p, parse_remote remote = .ok (uh, p) →
      startsWithSlash p = true ∧ uh ≠ "" ∧
      ∃ rest, splitOnce ':' remote = (uh, some rest) ∧ rest ≠ "" ∧
        (p = rest ∨ p = "/" ++ rest)) := by
  constructor
  · intro h
    rw [parse_remote, splitOnce_of_not_mem h]
  · intro uh p hok
    unfold parse_remote at hok
    split at hok
    · simp at hok
    · rename_i left right hsp
      split at hok
      · simp at hok
      · rename_i hemp
        have hne : left ≠ "" ∧ right ≠ "" := by
          constructor <;> intro h <;> subst h <;> simp at hemp
        split at hok
        · rename_i hsl
          obtain ⟨rfl, rfl⟩ : left = uh ∧ right = p := by simpa using hok
          exact ⟨hsl, hne.1, right, hsp, hne.2, Or.inl rfl⟩
        · rename_i hsl
          obtain ⟨rfl, rfl⟩ : left = uh ∧ ("/" ++ right) = p := by simpa using hok
          exact ⟨rfl, hne.1, right, hsp, hne.2, Or.inr rfl⟩

/-- C8 witness: the amended parser contract evaluated at `"nocolon"` (no
colon: FormatError) and `"h:p"` (missing slash: prepended). -/
theorem C8_witness :
    parse_remote "nocolon" = .error "remote must be in the form user@host:/path" ∧
    (startsWithSlash "/p" = true ∧ ("h" : String) ≠ "" ∧
      ∃ rest, splitOnce ':' "h:p" = ("h", some rest) ∧ rest ≠ "" ∧
        ("/p" = rest ∨ "/p" = "/" ++ rest)) :=
  ⟨(C8_parse_remote "nocolon").1 (by decide), (C8_parse_remote "h:p").2 "h" "/p" rfl⟩

/-- C7: address resolution from a shortcut. With no (or empty) override the
stored remote is returned verbatim. With an override, for a well-formed
remote `[user@]host:path`: an IPv4 host with a digit override of value at
most 255 gets exactly its last octet replaced; a non-IPv4 host with a
configured default subnet and a digit override of value at most 255 becomes
`subnet.override`; in every other case (non-digit or out-of-range override
such as "300", or no subnet) the remote is returned unchanged, never an
error. -/
theorem C7_resolve_remote (sc : Shortcut) (subnet : Option String) (ov uh path : String)
    (hov : ov ≠ "")
    (hp : parse_remote sc.remote = .ok (uh, path)) :
    (build_remote_from_shortcut sc none subnet = .ok sc.remote) ∧
    (build_remote_from_shortcut sc (some "") subnet = .ok sc.remote) ∧
    (is_ipv4 (pyStrip (hostPart uh)) = true → pyIsdigit ov = true → pyInt ov ≤ 255 →
      ∃ a b c d, splitStr '.' (pyStrip (hostPart uh)) = [a, b, c, d] ∧
        build_remote_from_shortcut sc (some ov) subnet =
          .ok (userPrefix uh ++ (a ++ "." ++ b ++ "." ++ c ++ "." ++ toString (pyInt ov))
               ++ ":" ++ path)) ∧
    (is_ipv4 (pyStrip (hostPart uh)) = false → truthy subnet = true → pyIsdigit ov = true →
      pyInt ov ≤ 255 →
      build_remote_from_shortcut sc (some ov) subnet =
        .ok (userPrefix uh ++ (subnet.getD "" ++ "." ++ toString (pyInt ov)) ++ ":" ++ path)) ∧
    (userPrefix uh ++ pyStrip (hostPart uh) ++ ":" ++ path = sc.remote →
      (¬(pyIsdigit ov = true ∧ pyInt ov ≤ 255) ∨
        (is_ipv4 (pyStrip (hostPart uh)) = false ∧
          ¬(truthy subnet = true ∧ pyIsdigit ov = true ∧ pyInt ov ≤ 255))) →
      build_remote_from_shortcut sc (some ov) subnet = .ok sc.remote) := by
  have htr : truthy (some ov) = true := by simp [truthy, hov]
  have hshape : build_remote_from_shortcut sc (some ov) subnet =
      .ok (userPrefix uh ++
        (if is_ipv4 (pyStrip (hostPart uh)) then replace_last_octet (pyStrip (hostPart uh)) ov
         else if truthy subnet && pyIsdigit ov then
           if decide (pyInt ov ≤ 255) then subnet.getD "" ++ "." ++ toString (pyInt ov)
           else pyStrip (hostPart uh)
         else pyStrip (hostPart uh)) ++ ":" ++ path) := by
    rw [build_remote_from_shortcut, htr]
    simp only [Bool.not_true, Bool.false_eq_true, if_false, hp, Option.getD_some]
  refine ⟨rfl, rfl, ?_, ?_, ?_⟩
  · intro hip hd hle
    obtain ⟨a, b, c, d, hsplit⟩ := is_ipv4_parts (s := pyStrip (hostPart uh)) hip
    rw [pyStrip_idem] at hsplit
    refine ⟨a, b, c, d, hsplit, ?_⟩
    rw [hshape, if_pos hip, replace_last_octet]
    rw [hip, hd, decide_eq_true hle]
    simp only [Bool.not_true, Bool.false_eq_true, if_false, hsplit]
  · intro hip hsub hd hle
    rw [hshape, if_neg (by simp [hip]), if_pos (by simp [hsub, hd]),
      if_pos (by simp [decide_eq_true hle])]
  · intro hcanon hno
    have hnew :
        (if is_ipv4 (pyStrip (hostPart uh)) then replace_last_octet (pyStrip (hostPart uh)) ov
         else if truthy subnet && pyIsdigit ov then
           if decide (pyInt ov ≤ 255) then subnet.getD "" ++ "." ++ toString (pyInt ov)
           else pyStrip (hostPart uh)
         else pyStrip (hostPart uh)) = pyStrip (hostPart uh) := by
      by_cases hip : is_ipv4 (pyStrip (hostPart uh)) = true
      · rw [if_pos hip, replace_last_octet, hip]
        rcases hno with hno | hno
        · by_cases hd : pyIsdigit ov = true
          · have hgt : ¬ pyInt ov ≤ 255 := fun hle => hno ⟨hd, hle⟩
            rw [hd, decide_eq_false hgt]
            simp
          · rw [Bool.eq_false_iff.mpr hd]
            simp
        · exact absurd hip (by simp [hno.1])
      · have hip' : is_ipv4 (pyStrip (hostPart uh)) = false := Bool.eq_false_iff.mpr hip
        rw [if_neg (by simp [hip'])]
        by_cases hguard : (truthy subnet && pyIsdigit ov) = true
        · rw [if_pos hguard]
          obtain ⟨hsub, hd⟩ := Bool.and_eq_true _ _ |>.mp hguard
          have hgt : ¬ pyInt ov ≤ 255 := by
            rcases hno with hno | hno
            · exact fun hle => hno ⟨hd, hle⟩
            · exact fun hle => hno.2 ⟨hsub, hd, hle⟩
          rw [if_neg (by simp [hgt])]
        · rw [if_neg (by simp [hguard])]
    rw [hshape, hnew, hcanon]

/-- Concrete shortcut with an IPv4 host, for the C7 witness. -/
def phoneShortcut : Shortcut :=
  { name := "phone", id := "phone", remote := "user@192.0.2.10:/path", mount_dir := "phone" }

/-- Concrete shortcut with a non-IPv4 host, for the C7 witness. -/
def namedHostShortcut : Shortcut :=
  { name := "ex", id := "ex", remote := "user@myhost.example:/path", mount_dir := "ex" }

/-- C7 witness: the three spec examples, produced by applying the claim
theorem at concrete inputs (octet override 42; subnet override 5;
out-of-range override 300 leaving the remote unchanged). -/
theorem C7_witness :
    (∃ a b c d, splitStr '.' (pyStrip (hostPart "user@192.0.2.10")) = [a, b, c, d] ∧
      build_remote_from_shortcut phoneShortcut (some "42") none =
        .ok (userPrefix "user@192.0.2.10" ++
          (a ++ "." ++ b ++ "." ++ c ++ "." ++ toString (pyInt "42")) ++ ":" ++ "/path")) ∧
    build_remote_from_shortcut namedHostShortcut (some "5") (some "10.0.0") =
      .ok (userPrefix "user@myhost.example" ++
        ((some "10.0.0").getD "" ++ "." ++ toString (pyInt "5")) ++ ":" ++ "/path") ∧
    build_remote_from_shortcut phoneShortcut (some "300") none = .ok phoneShortcut.remote :=
  ⟨(C7_resolve_remote phoneShortcut none "42" "user@192.0.2.10" "/path"
      (by decide) rfl).2.2.1 (by decide) (by decide) (by decide),
   (C7_resolve_remote namedHostShortcut (some "10.0.0") "5" "user@myhost.example" "/path"
      (by decide) rfl).2.2.2.1 (by decide) (by decide) (by decide) (by decide),
   (C7_resolve_remote phoneShortcut none "300" "user@192.0.2.10" "/path"
      (by decide) rfl).2.2.2.2 (by decide) (Or.inl (by decide))⟩

/-! ### Mount-state detection: CLI oracle (`cli.py` `is_sshfs_mounted`) and
legacy check (`sshfsman.py` `is_mounted`) -/

/-- The literal filesystem type the tool recognises. -/
def FSTYPE_SSHFS : String := "fuse.sshfs"

/-- Result of one external command: exit status and captured stdout. -/
structure CmdResult where
  returncode : Int
  stdout : String
deriving DecidableEq

/-- Environment for `is_sshfs_mounted`: whether each (already
user-expanded) path exists on disk, and the outcome of
`findmnt -n -T <path> -o FSTYPE` at each path (`none` models the `findmnt`
executable being absent, which raises). -/
structure FindmntEnv where
  pathExists : String → Bool
  findmnt : String → Option CmdResult

/-- `cli.py` `is_sshfs_mounted`: false when the path does not exist;
otherwise run `findmnt` scoped to the path; a missing binary is a fatal
error, a non-zero exit is false, and otherwise the stripped stdout must
equal `fuse.sshfs`. -/
def is_sshfs_mounted (env : FindmntEnv) (target_path : String) : Except String Bool :=
  if !env.pathExists target_path then .ok false
  else
    match env.findmnt target_path with
    | none => .error "findmnt not found; required for sshfsman mount detection"
    | some cp =>
      if cp.returncode ≠ 0 then .ok false
      else .ok (pyStrip cp.stdout == FSTYPE_SSHFS)

/-- State read by the legacy check: the lines of `/proc/mounts` (`none`
models `FileNotFoundError`), and the exit code of `mountpoint -q <path>`
(`none` models the `mountpoint` tool being absent). -/
structure ProcState where
  procMounts : Option (List String)
  mountpointExit : Option (String → Int)

/-- Python `pat in l` on character lists: `pat` occurs as a contiguous
substring. -/
def containsSub (pat : List Char) : List Char → Bool
  | [] => pat.isEmpty
  | c :: cs => pat.isPrefixOf (c :: cs) || containsSub pat cs

/-- Legacy `sshfsman.py` `is_mounted`: substring-match `" <path> "` against
each `/proc/mounts` line; when no line matches (or the file is missing),
fall back to `mountpoint -q` if available, else false. -/
def is_mounted (st : ProcState) (mountpoint : String) : Bool :=
  let hit :=
    match st.procMounts with
    | some lines => lines.any (fun line => containsSub (" " ++ mountpoint ++ " ").data line.data)
    | none => false
  if hit then true
  else
    match st.mountpointExit with
    | some exitAt => exitAt mountpoint == 0
    | none => false

/-- C1 counterexample: the legacy oracle `is_mounted` (sshfsman.py) is
driven by hand-parsed `/proc/mounts` contents: two states identical except
for `/proc/mounts` give different answers at the same path, and the
matching line reports fstype `ext4`, not `fuse.sshfs`, with no mount-table
inspector consulted at all. -/
theorem C1_counterexample :
    is_mounted ⟨some ["/dev/sda1 /mnt/sshfs/a ext4 rw 0 0"], none⟩ "/mnt/sshfs/a" = true ∧
    is_mounted ⟨some [], none⟩ "/mnt/sshfs/a" = false := by
  constructor <;> decide

/-- C1 (amended): the CLI oracle `is_sshfs_mounted` satisfies the claim: a
nonexistent path is immediately false; an existing path is mounted exactly
when the inspector ran, exited zero and reported `fuse.sshfs`; a non-zero
inspector exit yields false. (The legacy script's `is_mounted` does not:
see the counterexample.) -/
theorem C1_cli_oracle (env : FindmntEnv) (p : String) :
    (env.pathExists p = false → is_sshfs_mounted env p = .ok false) ∧
    (env.pathExists p = true →
      (is_sshfs_mounted env p = .ok true ↔
        ∃ cp, env.findmnt p = some cp ∧ cp.returncode = 0 ∧ pyStrip cp.stdout = FSTYPE_SSHFS)) ∧
    (env.pathExists p = true → ∀ cp, env.findmnt p = some cp → cp.returncode ≠ 0 →
      is_sshfs_mounted env p = .ok false) := by
  refine ⟨fun hne => ?_, fun hex => ?_, fun hex cp hcp hrc => ?_⟩
  · rw [is_sshfs_mounted, hne]
    rfl
  · rw [is_sshfs_mounted, hex]
    simp only [Bool.not_true, Bool.false_eq_true, if_false]
    cases hf : env.findmnt p with
    | none =>
      simp only []
      constructor
      · intro h; exact absurd h (by simp)
      · rintro ⟨cp, hcp, _⟩; simp at hcp
    | some cp =>
      simp only []
      by_cases hrc : cp.returncode ≠ 0
      · rw [if_pos hrc]
        constructor
        · intro h; exact absurd h (by simp)
        · rintro ⟨cp2, hcp2, hrc2, _⟩
          obtain rfl : cp = cp2 := by simpa using hcp2
          exact absurd hrc2 hrc
      · rw [if_neg hrc]
        push_neg at hrc
        constructor
        · intro h
          have hbeq : (pyStrip cp.stdout == FSTYPE_SSHFS) = true := by simpa using h
          exact ⟨cp, rfl, hrc, eq_of_beq hbeq⟩
        · rintro ⟨cp2, hcp2, _, heq⟩
          obtain rfl : cp = cp2 := by simpa using hcp2
          simp [heq]
  · rw [is_sshfs_mounted, hex]
    simp only [Bool.not_true, Bool.false_eq_true, if_false, hcp, if_pos hrc]

/-- C1 witness: the amended CLI-oracle contract at concrete environments
(existing path with a `fuse.sshfs` findmnt answer is mounted; nonexistent
path is unmounted without consulting the inspector; non-zero inspector exit
is unmounted). -/
theorem C1_witness :
    is_sshfs_mounted ⟨fun _ => true, fun _ => some ⟨0, " fuse.sshfs\n"⟩⟩ "/mnt/sshfs/a" =
      .ok true ∧
    is_sshfs_mounted ⟨fun _ => false, fun _ => none⟩ "/mnt/sshfs/a" = .ok false ∧
    is_sshfs_mounted ⟨fun _ => true, fun _ => some ⟨1, ""⟩⟩ "/mnt/sshfs/a" = .ok false :=
  ⟨((C1_cli_oracle ⟨fun _ => true, fun _ => some ⟨0, " fuse.sshfs\n"⟩⟩ "/mnt/sshfs/a").2.1
      rfl).mpr ⟨⟨0, " fuse.sshfs\n"⟩, rfl, rfl, by decide⟩,
   (C1_cli_oracle ⟨fun _ => false, fun _ => none⟩ "/mnt/sshfs/a").1 rfl,
   (C1_cli_oracle ⟨fun _ => true, fun _ => some ⟨1, ""⟩⟩ "/mnt/sshfs/a").2.2 rfl ⟨1, ""⟩ rfl
     (by decide)⟩

/-! ### Path confinement (`cli.py` `_ensure_under_mount_root`) -/

/-- An absolute filesystem path, as its list of components. -/
abbrev FsPath := List String

/-- Lexical canonicalization of `.` and `..` segments, modelling
`Path.resolve()` on a symlink-free filesystem; used as a concrete `resolve`
in witnesses. -/
def normalizePath (p : FsPath) : FsPath :=
  p.foldl
    (fun acc seg =>
      if seg = "." then acc
      else if seg = ".." then acc.dropLast
      else acc ++ [seg])
    []

/-- `cli.py` `_ensure_under_mount_root`: canonicalize the mount root and the
candidate with the ambient `resolve` (the OS-level `Path.resolve()`, a
parameter of the model) and fail unless the root's components are a prefix
of the candidate's (`Path.relative_to` succeeds exactly then). -/
def ensure_under_mount_root (resolve : FsPath → FsPath) (mount_root p : FsPath) :
    Except String Unit :=
  let mr := resolve mount_root
  let pp := resolve p
  if mr <+: pp then .ok ()
  else .error "refusing to operate outside mount_root"

/-- C2: `ensure_under_mount_root` succeeds exactly when the canonicalized
candidate equals the canonicalized root or is a descendant of it, and
otherwise fails with the path-escape error (never silently correcting);
with lexical canonicalization, root `/mnt/sshfs` with candidate
`/mnt/sshfs/../etc` fails. -/
theorem C2_ensure_under_root (resolve : FsPath → FsPath) (mount_root p : FsPath) :
    (ensure_under_mount_root resolve mount_root p = .ok () ↔
      resolve p = resolve mount_root ∨
        ∃ rest, rest ≠ [] ∧ resolve p = resolve mount_root ++ rest) ∧
    (ensure_under_mount_root resolve mount_root p = .ok () ∨
      ensure_under_mount_root resolve mount_root p =
        .error "refusing to operate outside mount_root") ∧
    ensure_under_mount_root normalizePath ["mnt", "sshfs"] ["mnt", "sshfs", "..", "etc"] =
      .error "refusing to operate outside mount_root" := by
  refine ⟨?_, ?_, by rfl⟩
  · rw [ensure_under_mount_root]
    by_cases hpre : resolve mount_root <+: resolve p
    · rw [if_pos hpre]
      simp only [true_iff]
      obtain ⟨t, ht⟩ := hpre
      cases t with
      | nil => exact Or.inl (by rw [← ht]; simp)
      | cons a tl => exact Or.inr ⟨a :: tl, by simp, ht.symm⟩
    · rw [if_neg hpre]
      constructor
      · intro h; exact absurd h (by simp)
      · rintro (heq | ⟨rest, _, heq⟩)
        · exact absurd ⟨[], by rw [heq]; simp⟩ hpre
        · exact absurd ⟨rest, heq.symm⟩ hpre
  · rw [ensure_under_mount_root]
    by_cases hpre : resolve mount_root <+: resolve p
    · rw [if_pos hpre]; exact Or.inl rfl
    · rw [if_neg hpre]; exact Or.inr rfl

/-! ### Directory pruning (`cli.py` `_safe_prune_empty_dirs`) -/

/-- A filesystem snapshot for the pruning model: the set of currently
existing entries, each as its component path. -/
abbrev FsState := List FsPath

/-- A directory is empty when no other existing entry lies strictly below
it. -/
def isEmptyDir (p : FsPath) (fs : FsState) : Bool :=
  fs.all (fun q => decide (¬(p <+: q ∧ q ≠ p)))

/-- POSIX `rmdir`: succeeds only on an existing, empty directory, removing
exactly that entry; any other situation is an `OSError` (`none`). -/
def rmdir (p : FsPath) (fs : FsState) : Option FsState :=
  if p ∈ fs ∧ isEmptyDir p fs = true then some (fs.erase p) else none

/-- Outcome of a pruning run: the Python return or raised exception, the
final filesystem, and the trace of removals (each with the filesystem as it
was just before that removal). -/
structure PruneOut where
  res : Except String Unit
  fs : FsState
  removed : List (FsPath × FsState)
deriving Repr

/-- Loop of `_safe_prune_empty_dirs`. The Python loop walks from the leaf
upward (`cur = cur.parent`); we recurse structurally on the reversed
component list of `cur`, whose tail is the parent. `mr` is the resolved
mount root, and `mounted` is the oracle call `is_sshfs_mounted(cur)`. -/
def prune_go (resolve : FsPath → FsPath) (mounted : FsPath → Except String Bool)
    (mr : FsPath) : List String → FsState → PruneOut
  | rcur, fs =>
    if rcur.reverse = mr then ⟨.ok (), fs, []⟩
    else
      match ensure_under_mount_root resolve mr rcur.reverse with
      | .error e => ⟨.error e, fs, []⟩
      | .ok _ =>
        match mounted rcur.reverse with
        | .error e => ⟨.error e, fs, []⟩
        | .ok true => ⟨.ok (), fs, []⟩
        | .ok false =>
          match rmdir rcur.reverse fs with
          | none => ⟨.ok (), fs, []⟩
          | some fs2 =>
            match rcur with
            | [] => ⟨.ok (), fs2, [(rcur.reverse, fs)]⟩
            | _ :: rtail =>
              let out := prune_go resolve mounted mr rtail fs2
              ⟨out.res, out.fs, (rcur.reverse, fs) :: out.removed⟩

/-- `cli.py` `_safe_prune_empty_dirs`: resolve the mount root and the start
path, then walk upward. -/
def safe_prune_empty_dirs (resolve : FsPath → FsPath)
    (mounted : FsPath → Except String Bool) (mount_root start : FsPath)
    (fs : FsState) : PruneOut :=
  prune_go resolve mounted (resolve mount_root) (resolve start).reverse fs

lemma rmdir_some {p : FsPath} {fs fs2 : FsState} (h : rmdir p fs = some fs2) :
    p ∈ fs ∧ isEmptyDir p fs = true := by
  rw [rmdir] at h
  split at h
  · next hmem => exact hmem
  · simp at h

lemma prune_go_removed (resolve : FsPath → FsPath) (mounted : FsPath → Except String Bool)
    (mr : FsPath) :
    ∀ (rcur : List String) (fs : FsState) (q : FsPath) (s : FsState),
      (q, s) ∈ (prune_go resolve mounted mr rcur fs).removed →
      q ≠ mr ∧ q ∈ s ∧ isEmptyDir q s = true ∧ mounted q = .ok false := by
  intro rcur
  induction rcur with
  | nil =>
    intro fs q s h
    by_cases hcur : ([] : List String).reverse = mr
    · rw [prune_go, if_pos hcur] at h
      simp at h
    · rw [prune_go, if_neg hcur] at h
      rcases hE : ensure_under_mount_root resolve mr ([] : List String).reverse with e | u
      · rw [hE] at h; simp at h
      · rw [hE] at h
        rcases hM : mounted ([] : List String).reverse with e | b
        · rw [hM] at h; simp at h
        · cases b with
          | true => rw [hM] at h; simp at h
          | false =>
            rw [hM] at h
            rcases hR : rmdir ([] : List String).reverse fs with _ | fs2
            · rw [hR] at h; simp at h
            · rw [hR] at h
              simp only [List.mem_singleton, Prod.mk.injEq] at h
              obtain ⟨rfl, rfl⟩ := h
              obtain ⟨hmem, hemp⟩ := rmdir_some hR
              exact ⟨hcur, hmem, hemp, hM⟩
  | cons a rtail ih =>
    intro fs q s h
    by_cases hcur : (a :: rtail).reverse = mr
    · rw [prune_go, if_pos hcur] at h
      simp at h
    · rw [prune_go, if_neg hcur] at h
      rcases hE : ensure_under_mount_root resolve mr (a :: rtail).reverse with e | u
      · rw [hE] at h; simp at h
      · rw [hE] at h
        rcases hM : mounted (a :: rtail).reverse with e | b
        · rw [hM] at h; simp at h
        · cases b with
          | true => rw [hM] at h; simp at h
          | false =>
            rw [hM] at h
            rcases hR : rmdir (a :: rtail).reverse fs with _ | fs2
            · rw [hR] at h; simp at h
            · rw [hR] at h
              simp only [List.mem_cons, Prod.mk.injEq] at h
              rcases h with ⟨rfl, rfl⟩ | h
              · obtain ⟨hmem, hemp⟩ := rmdir_some hR
                exact ⟨hcur, hmem, hemp, hM⟩
              · exact ih fs2 q s h

/-- C3: safety of pruning. Every directory the pruner ever removes — in
any run, from any start path, over any filesystem — is distinct from the
(resolved) mount root, existed and was empty at the moment of removal
(removal is an `rmdir`, never recursive), and was reported unmounted by the
oracle at that moment. -/
theorem C3_prune_safety (resolve : FsPath → FsPath)
    (mounted : FsPath → Except String Bool) (mount_root start : FsPath) (fs : FsState) :
    ∀ q s, (q, s) ∈ (safe_prune_empty_dirs resolve mounted mount_root start fs).removed →
      q ≠ resolve mount_root ∧ q ∈ s ∧ isEmptyDir q s = true ∧ mounted q = .ok false :=
  fun q s h => prune_go_removed resolve mounted (resolve mount_root)
    (resolve start).reverse fs q s h

/-- C3 witness: a concrete two-level prune under `/mnt/sshfs` removes
`/mnt/sshfs/a/b` first; the claim theorem applied to that removal shows it
was not the root, existed, was empty, and was unmounted. -/
theorem C3_witness :
    ["mnt", "sshfs", "a", "b"] ≠ id ["mnt", "sshfs"] ∧
    ["mnt", "sshfs", "a", "b"] ∈
      [["mnt", "sshfs"], ["mnt", "sshfs", "a"], ["mnt", "sshfs", "a", "b"]] ∧
    isEmptyDir ["mnt", "sshfs", "a", "b"]
      [["mnt", "sshfs"], ["mnt", "sshfs", "a"], ["mnt", "sshfs", "a", "b"]] = true ∧
    (fun _ : FsPath => (Except.ok false : Except String Bool)) ["mnt", "sshfs", "a", "b"] =
      .ok false :=
  C3_prune_safety id (fun _ => .ok false) ["mnt", "sshfs"] ["mnt", "sshfs", "a", "b"]
    [["mnt", "sshfs"], ["mnt", "sshfs", "a"], ["mnt", "sshfs", "a", "b"]]
    ["mnt", "sshfs", "a", "b"]
    [["mnt", "sshfs"], ["mnt", "sshfs", "a"], ["mnt", "sshfs", "a", "b"]]
    (by decide)

/-- C6 counterexample: pruning from a start path outside the mount root does
not stop silently — the `_ensure_under_mount_root` failure inside the loop
propagates as an error (the code has no try/except around it), so
`pruneUpward` is not failure-free for every input. -/
theorem C6_counterexample :
    (safe_prune_empty_dirs id (fun _ => .ok false) ["mnt", "sshfs"] ["etc"] [["etc"]]).res =
      .error "refusing to operate outside mount_root" := rfl

lemma ancestor_dropLast {p q : FsPath} (hpre : p <+: q) (hne : p ≠ q) : p <+: q.dropLast := by
  obtain ⟨t, rfl⟩ := hpre
  rcases List.eq_nil_or_concat t with rfl | ⟨t2, x, rfl⟩
  · exact absurd (by simp) hne
  · rw [List.concat_eq_append, ← List.append_assoc, List.dropLast_concat]
    exact ⟨t2, rfl⟩

lemma prune_go_ok (resolve : FsPath → FsPath) (mounted : FsPath → Except String Bool)
    (mr : FsPath) (hmr : resolve mr = mr)
    (hdrop : ∀ p, resolve p = p → resolve p.dropLast = p.dropLast)
    (htotal : ∀ p, ∃ b, mounted p = .ok b) :
    ∀ (rcur : List String) (fs : FsState),
      resolve rcur.reverse = rcur.reverse → mr <+: rcur.reverse →
      (prune_go resolve mounted mr rcur fs).res = .ok () := by
  intro rcur
  induction rcur with
  | nil =>
    intro fs hres hpre
    by_cases hcur : ([] : List String).reverse = mr
    · rw [prune_go, if_pos hcur]
    · rw [prune_go, if_neg hcur]
      have hE : ensure_under_mount_root resolve mr ([] : List String).reverse = .ok () := by
        simp only [ensure_under_mount_root, hmr, hres]
        rw [if_pos hpre]
      rw [hE]
      obtain ⟨b, hM⟩ := htotal ([] : List String).reverse
      rw [hM]
      cases b with
      | true => rfl
      | false =>
        rcases hR : rmdir ([] : List String).reverse fs with _ | fs2 <;> rfl
  | cons a rtail ih =>
    intro fs hres hpre
    by_cases hcur : (a :: rtail).reverse = mr
    · rw [prune_go, if_pos hcur]
    · rw [prune_go, if_neg hcur]
      have hE : ensure_under_mount_root resolve mr (a :: rtail).reverse = .ok () := by
        simp only [ensure_under_mount_root, hmr, hres]
        rw [if_pos hpre]
      rw [hE]
      obtain ⟨b, hM⟩ := htotal (a :: rtail).reverse
      rw [hM]
      cases b with
      | true => rfl
      | false =>
        rcases hR : rmdir (a :: rtail).reverse fs with _ | fs2
        · rfl
        · have hdl : ((a :: rtail).reverse).dropLast = rtail.reverse := by
            rw [List.reverse_cons, List.dropLast_concat]
          have hres2 : resolve rtail.reverse = rtail.reverse := by
            rw [← hdl]
            exact hdrop _ hres
          have hpre2 : mr <+: rtail.reverse := by
            rw [← hdl]
            exact ancestor_dropLast hpre (fun h => hcur h.symm)
          show (prune_go resolve mounted mr rtail fs2).res = .ok ()
          exact ih fs2 hres2 hpre2

/-- C6 (amended): pruning is best-effort and never fails when its
preconditions hold — the canonicalized start path lies under the
canonicalized mount root (as guaranteed by the callers, which validate
before pruning) and the mount oracle itself does not raise; in particular a
directory-removal failure of any kind stops the walk silently. For a start
path outside the mount root, however, the loop's `_ensure_under_mount_root`
raises a path-escape error rather than returning (see the
counterexample). -/
theorem C6_prune_best_effort (resolve : FsPath → FsPath)
    (mounted : FsPath → Except String Bool) (mount_root start : FsPath) (fs : FsState)
    (hidem : ∀ p, resolve (resolve p) = resolve p)
    (hdrop : ∀ p, resolve p = p → resolve p.dropLast = p.dropLast)
    (htotal : ∀ p, ∃ b, mounted p = .ok b)
    (hunder : resolve mount_root <+: resolve start) :
    (safe_prune_empty_dirs resolve mounted mount_root start fs).res = .ok () := by
  rw [safe_prune_empty_dirs]
  refine prune_go_ok resolve mounted (resolve mount_root) (hidem mount_root) hdrop htotal
    (resolve start).reverse fs ?_ ?_
  · rw [List.reverse_reverse]
    exact hidem start
  · rw [List.reverse_reverse]
    exact hunder

/-- C6 witness: a concrete in-root prune (removal succeeding twice, then
stopping at the root) returns without error. -/
theorem C6_witness :
    (safe_prune_empty_dirs id (fun _ => .ok false) ["mnt", "sshfs"]
      ["mnt", "sshfs", "a", "b"]
      [["mnt", "sshfs"], ["mnt", "sshfs", "a"], ["mnt", "sshfs", "a", "b"]]).res = .ok () :=
  C6_prune_best_effort id (fun _ => .ok false) ["mnt", "sshfs"] ["mnt", "sshfs", "a", "b"]
    [["mnt", "sshfs"], ["mnt", "sshfs", "a"], ["mnt", "sshfs", "a", "b"]]
    (fun _ => rfl) (fun _ _ => rfl) (fun _ => ⟨false, rfl⟩) (by decide)

/-! ### The mount command (`cli.py` `cmd_mount`) -/

/-- `cli.py` `AppConfig`; shortcuts as an association list keyed by name. -/
structure AppConfig where
  mount_root : FsPath
  default_subnet : Option String
  shortcuts : List (String × Shortcut)
deriving DecidableEq

/-- Arguments of the `mount` subcommand. -/
structure MountArgs where
  shortcut : Option String := none
  remote : Option String := none
  id : Option String := none
  create_shortcut : Option String := none
  mount_dir : Option String := none
  port : Option Nat := none
  identity : Option String := none
  readonly : Bool := false
  no_reconnect_defaults : Bool := false
  options : List String := []
deriving DecidableEq

/-- Fully resolved invocation parameters. -/
structure MountInv where
  port : Option Nat
  identity : Option String
  readonly : Bool
  no_reconnect_defaults : Bool
  options : List String
deriving DecidableEq

/-- `cli.py` `_split_options` and the normalization step of
`_merge_saved_and_cli_mount_args`: split each option at commas, strip the
parts, drop empties. -/
def split_options (opts : List String) : List String :=
  opts.flatMap (fun o => ((splitStr ',' o).map pyStrip).filter (fun p => p ≠ ""))

/-- `cli.py` `_merge_saved_and_cli_mount_args`: CLI flags override saved
shortcut values; the merged options are comma-normalized. -/
def merge_saved_and_cli_mount_args (sc : Option Shortcut) (args : MountArgs) : MountInv :=
  let merged :=
    match sc with
    | none => (args.port, args.identity, args.readonly, args.no_reconnect_defaults, args.options)
    | some sc =>
      (if args.port.isNone then sc.port else args.port,
       if args.identity.isNone then sc.identity else args.identity,
       if args.readonly then args.readonly else sc.readonly,
       if args.no_reconnect_defaults then args.no_reconnect_defaults
         else sc.no_reconnect_defaults,
       if args.options.isEmpty && !sc.options.isEmpty then sc.options else args.options)
  { port := merged.1, identity := merged.2.1, readonly := merged.2.2.1,
    no_reconnect_defaults := merged.2.2.2.1, options := split_options merged.2.2.2.2 }

/-- Observable events of one `cmd_mount` run, in order. -/
inductive MountEv
  | wroteConfig (cfg : AppConfig)
  | checkedMounted (result : Bool)
  | ranHelper (cmd : List String)
  | verifiedMounted (result : Bool)
deriving DecidableEq

def isWroteEv : MountEv → Bool
  | .wroteConfig _ => true
  | _ => false

def isRanEv : MountEv → Bool
  | .ranHelper _ => true
  | _ => false

/-- External-world responses consumed by one `cmd_mount` run: the OS path
canonicalizer, the oracle answer at the pre-mount guard, the sshfs helper
exit status, and the oracle answer at post-mount verification. -/
structure MountSys where
  resolve : FsPath → FsPath
  preMounted : Except String Bool
  helperExit : Int
  postMounted : Except String Bool

/-- Result of a `cmd_mount` run: the Python return code or raised error,
plus the event trace. -/
structure MountOut where
  res : Except String Int
  events : List MountEv

def resIsOk : Except String Int → Bool
  | .ok _ => true
  | .error _ => false

/-- Render an absolute component path as a string (`str(mountpoint)`). -/
def renderPath (p : FsPath) : String := "/" ++ joinSep '/' p

/-- Python `dict[name] = sc`: replace or append the binding. -/
def upsertShortcut (m : List (String × Shortcut)) (name : String) (sc : Shortcut) :
    List (String × Shortcut) :=
  if (m.lookup name).isSome then
    m.map (fun kv => if kv.1 = name then (name, sc) else kv)
  else m ++ [(name, sc)]

/-- The target/remote resolution prologue of `cmd_mount`: pick the shortcut
or the raw remote, build the final remote string, and derive the sanitized
mount directory name. -/
def cmd_mount_target (cfg : AppConfig) (args : MountArgs) :
    Except String (Option Shortcut × String × String) :=
  if truthy args.shortcut then
    match cfg.shortcuts.lookup (args.shortcut.getD "") with
    | none => .error ("unknown shortcut: " ++ args.shortcut.getD "")
    | some sc =>
      match build_remote_from_shortcut sc args.id cfg.default_subnet with
      | .error e => .error e
      | .ok remote_final =>
        .ok (some sc, remote_final,
          sanitize_mount_dir
            ((orElseTruthy args.mount_dir
              (orElseTruthy (some sc.mount_dir) args.shortcut)).getD ""))
  else
    let remote_final := args.remote.getD ""
    if truthy args.mount_dir then
      .ok (none, remote_final, sanitize_mount_dir (args.mount_dir.getD ""))
    else
      match infer_mount_dir_from_remote remote_final with
      | .error e => .error e
      | .ok inferred => .ok (none, remote_final, sanitize_mount_dir inferred)

/-- The `--create-shortcut` step of `cmd_mount`: build the new shortcut,
overwrite any existing entry, and rewrite the configuration — all before
the mount is attempted. -/
def createShortcutStep (cfg : AppConfig) (args : MountArgs) (inv : MountInv)
    (remote_final mount_name : String) : AppConfig × List MountEv :=
  match args.create_shortcut with
  | some name =>
    if name ≠ "" then
      let sc_new : Shortcut :=
        { name := name, id := name, remote := remote_final, mount_dir := mount_name,
          port := inv.port, identity := inv.identity, options := inv.options,
          readonly := inv.readonly, no_reconnect_defaults := inv.no_reconnect_defaults }
      let cfgW : AppConfig :=
        { mount_root := cfg.mount_root, default_subnet := cfg.default_subnet,
          shortcuts := upsertShortcut cfg.shortcuts name sc_new }
      (cfgW, [MountEv.wroteConfig cfgW])
    else (cfg, [])
  | none => (cfg, [])

/-- The sshfs argument vector assembled by `cmd_mount` (executable, remote,
target, then `-o` options, `-p` port, identity file). -/
def build_sshfs_cmd_cli (inv : MountInv) (remote_final : String) (mountpoint : FsPath) :
    List String :=
  let opts :=
    (if !inv.no_reconnect_defaults then
      ["reconnect", "ServerAliveInterval=15", "ServerAliveCountMax=3"]
     else []) ++
    (if inv.readonly then ["ro"] else []) ++ inv.options
  ["sshfs", remote_final, renderPath mountpoint] ++
    opts.flatMap (fun o => ["-o", o]) ++
    (match inv.port with
     | some p => ["-p", toString p]
     | none => []) ++
    (match inv.identity with
     | some i => if i ≠ "" then ["-o", "IdentityFile=" ++ i] else []
     | none => [])

/-- `cli.py` `cmd_mount`. Directory creation has no observable effect in
the model; the config write, the pre-mount oracle check, the helper
invocation and the post-mount verification are traced in order. -/
def cmd_mount (sys : MountSys) (cfg : AppConfig) (args : MountArgs) : MountOut :=
  if truthy args.shortcut && truthy args.remote then
    ⟨.error "provide either --shortcut or --remote, not both", []⟩
  else if !truthy args.shortcut && !truthy args.remote then
    ⟨.error "mount requires --shortcut NAME or --remote user@host:/path", []⟩
  else
    match cmd_mount_target cfg args with
    | .error e => ⟨.error e, []⟩
    | .ok (sc_for_args, remote_final, mount_name) =>
      match ensure_under_mount_root sys.resolve cfg.mount_root
          (sys.resolve (cfg.mount_root ++ [mount_name])) with
      | .error e => ⟨.error e, []⟩
      | .ok _ =>
        let mountpoint := sys.resolve (cfg.mount_root ++ [mount_name])
        let inv := merge_saved_and_cli_mount_args sc_for_args args
        let evs0 := (createShortcutStep cfg args inv remote_final mount_name).2
        match sys.preMounted with
        | .error e => ⟨.error e, evs0⟩
        | .ok true => ⟨.ok 0, evs0 ++ [MountEv.checkedMounted true]⟩
        | .ok false =>
          let cmd := build_sshfs_cmd_cli inv remote_final mountpoint
          let evs2 := evs0 ++ [MountEv.checkedMounted false, MountEv.ranHelper cmd]
          if sys.helperExit ≠ 0 then
            ⟨.error "sshfs mount failed", evs2⟩
          else
            match sys.postMounted with
            | .error e => ⟨.error e, evs2⟩
            | .ok false =>
              ⟨.error
                "mount command succeeded but mount not detected as fuse.sshfs via findmnt",
               evs2 ++ [MountEv.verifiedMounted false]⟩
            | .ok true => ⟨.ok 0, evs2 ++ [MountEv.verifiedMounted true]⟩

lemma createShortcutStep_events (cfg : AppConfig) (args : MountArgs) (inv : MountInv)
    (rf mn : String) :
    ((createShortcutStep cfg args inv rf mn).2 = [] ∧ truthy args.create_shortcut = false) ∨
    (truthy args.create_shortcut = true ∧
      ∃ c2, (createShortcutStep cfg args inv rf mn).2 = [MountEv.wroteConfig c2]) := by
  unfold createShortcutStep
  split
  · rename_i name hname
    split
    · rename_i hn
      exact Or.inr ⟨by simp [truthy, hname, hn], _, rfl⟩
    · rename_i hn
      push_neg at hn
      exact Or.inl ⟨rfl, by simp [truthy, hname, hn]⟩
  · rename_i hname
    exact Or.inl ⟨rfl, by simp [truthy, hname]⟩

/-- Shape of every `cmd_mount` run: either no events at all (an early
validation error), or a trace `evs0 ++ rest` where `evs0` is the config
write (present exactly when `--create-shortcut` was given), `rest` contains
no config write, and an already-mounted oracle answer makes the run a
success with no helper invocation. -/
lemma cmd_mount_shape (sys : MountSys) (cfg : AppConfig) (args : MountArgs) :
    ((cmd_mount sys cfg args).events = []) ∨
    ∃ evs0 rest,
      (cmd_mount sys cfg args).events = evs0 ++ rest ∧
      ((evs0 = [] ∧ truthy args.create_shortcut = false) ∨
        (truthy args.create_shortcut = true ∧ ∃ c2, evs0 = [MountEv.wroteConfig c2])) ∧
      (∀ e ∈ evs0, isRanEv e = false) ∧
      (∀ e ∈ rest, isWroteEv e = false) ∧
      (sys.preMounted = .ok true →
        rest = [MountEv.checkedMounted true] ∧ (cmd_mount sys cfg args).res = .ok 0) := by
  by_cases hv1 : (truthy args.shortcut && truthy args.remote) = true
  · exact Or.inl (by simp [cmd_mount, hv1])
  rw [Bool.not_eq_true] at hv1
  by_cases hv2 : (!truthy args.shortcut && !truthy args.remote) = true
  · exact Or.inl (by simp [cmd_mount, hv1, hv2])
  rw [Bool.not_eq_true] at hv2
  rcases hT : cmd_mount_target cfg args with e | ⟨sc_for_args, remote_final, mount_name⟩
  · exact Or.inl (by simp [cmd_mount, hv1, hv2, hT])
  rcases hE : ensure_under_mount_root sys.resolve cfg.mount_root
      (sys.resolve (cfg.mount_root ++ [mount_name])) with e | u
  · exact Or.inl (by simp [cmd_mount, hv1, hv2, hT, hE])
  have hcs := createShortcutStep_events cfg args
    (merge_saved_and_cli_mount_args sc_for_args args) remote_final mount_name
  have h0 : ∀ e ∈ (createShortcutStep cfg args
      (merge_saved_and_cli_mount_args sc_for_args args) remote_final mount_name).2,
      isRanEv e = false := by
    rcases hcs with ⟨h, _⟩ | ⟨_, c2, h⟩ <;> rw [h] <;> simp [isRanEv]
  rcases hpm : sys.preMounted with e | b
  · exact Or.inr ⟨(createShortcutStep cfg args
      (merge_saved_and_cli_mount_args sc_for_args args) remote_final mount_name).2, [],
      by simp [cmd_mount, hv1, hv2, hT, hE, hpm], hcs, h0,
      fun e he => absurd he (List.not_mem_nil e),
      fun h => absurd h (by simp)⟩
  cases b with
  | true =>
    exact Or.inr ⟨(createShortcutStep cfg args
      (merge_saved_and_cli_mount_args sc_for_args args) remote_final mount_name).2,
      [MountEv.checkedMounted true], by simp [cmd_mount, hv1, hv2, hT, hE, hpm], hcs,
      h0, by simp [isWroteEv], fun _ =>
        ⟨rfl, by simp [cmd_mount, hv1, hv2, hT, hE, hpm]⟩⟩
  | false =>
    by_cases hhe : sys.helperExit ≠ 0
    · exact Or.inr ⟨(createShortcutStep cfg args
        (merge_saved_and_cli_mount_args sc_for_args args) remote_final mount_name).2,
        [MountEv.checkedMounted false,
         MountEv.ranHelper (build_sshfs_cmd_cli
          (merge_saved_and_cli_mount_args sc_for_args args) remote_final
          (sys.resolve (cfg.mount_root ++ [mount_name])))],
        by simp [cmd_mount, hv1, hv2, hT, hE, hpm, hhe], hcs, h0,
        by simp [isWroteEv], fun h => absurd h (by simp)⟩
    rcases hpo : sys.postMounted with e | b2
    · exact Or.inr ⟨(createShortcutStep cfg args
        (merge_saved_and_cli_mount_args sc_for_args args) remote_final mount_name).2,
        [MountEv.checkedMounted false,
         MountEv.ranHelper (build_sshfs_cmd_cli
          (merge_saved_and_cli_mount_args sc_for_args args) remote_final
          (sys.resolve (cfg.mount_root ++ [mount_name])))],
        by simp [cmd_mount, hv1, hv2, hT, hE, hpm, hhe, hpo], hcs, h0,
        by simp [isWroteEv], fun h => absurd h (by simp)⟩
    · exact Or.inr ⟨(createShortcutStep cfg args
        (merge_saved_and_cli_mount_args sc_for_args args) remote_final mount_name).2,
        [MountEv.checkedMounted false,
         MountEv.ranHelper (build_sshfs_cmd_cli
          (merge_saved_and_cli_mount_args sc_for_args args) remote_final
          (sys.resolve (cfg.mount_root ++ [mount_name]))),
         MountEv.verifiedMounted b2],
        by cases b2 <;> simp [cmd_mount, hv1, hv2, hT, hE, hpm, hhe, hpo], hcs, h0,
        by simp [isWroteEv], fun h => absurd h (by simp)⟩

/-! ### Legacy script (`sshfsman.py`): `ensure_tools`, `build_sshfs_cmd`,
`do_mount` -/

/-- `sshfsman.py` `MountSpec`. -/
structure MountSpec where
  identifier : String
  remote : String
  port : Option Nat
  mount_root : String
  allow_other : Bool
  password : Bool
  non_interactive : Bool
  extra_opts : List String
deriving DecidableEq

/-- `MountSpec.mountpoint`: `mount_root / identifier` rendered as a
string. -/
def MountSpec.mountpointStr (s : MountSpec) : String :=
  s.mount_root ++ "/" ++ s.identifier

/-- External world of the legacy script: which tools are installed, the
password environment variable, whether stdin is a TTY, the mount-state
snapshots before and after the helper run, and the helper's exit status. -/
structure LegacySys where
  sshfs : Option String
  fusermount : Option String
  sshpass : Bool
  envPassword : Option String
  stdinTty : Bool
  before : ProcState
  after : ProcState
  runExit : Int

/-- `sshfsman.py` `ensure_tools` (`die` exits with status 2). -/
def ensure_tools (sys : LegacySys) (password non_interactive : Bool) :
    Except (String × Int) (String × String) :=
  match sys.sshfs with
  | none => .error ("sshfs not found. Install it (Arch: sshfs; Debian/Ubuntu: sshfs)", 2)
  | some sshfs =>
    match sys.fusermount with
    | none => .error ("fusermount not found. Install fuse3 (often provides fusermount3)", 2)
    | some fm =>
      if password && non_interactive && !sys.sshpass then
        .error
          ("--non-interactive requires sshpass (or drop --non-interactive for TTY prompting)",
           2)
      else .ok (sshfs, fm)

/-- `sshfsman.py` `build_sshfs_cmd`. -/
def build_sshfs_cmd (sys : LegacySys) (sshfs : String) (spec : MountSpec) :
    Except (String × Int) (List String) :=
  match
    (if spec.password && spec.non_interactive then
      match sys.envPassword with
      | none => .error ("SSHFSMAN_PASSWORD env var is required for --non-interactive", 2)
      | some pw =>
        if pw = "" then
          .error ("SSHFSMAN_PASSWORD env var is required for --non-interactive", 2)
        else .ok ["sshpass", "-e"]
    else (.ok [] : Except (String × Int) (List String))) with
  | .error e => .error e
  | .ok pre =>
    let opts :=
      (match spec.port with
       | some p => ["ssh_command=ssh -p " ++ toString p]
       | none => []) ++
      (if spec.password then ["PasswordAuthentication=yes", "PubkeyAuthentication=no"]
       else []) ++
      (if spec.allow_other then ["allow_other"] else []) ++
      ["reconnect", "ServerAliveInterval=15", "ServerAliveCountMax=3",
       "StrictHostKeyChecking=accept-new", "UserKnownHostsFile=/etc/ssh/ssh_known_hosts"] ++
      spec.extra_opts
    .ok (pre ++ [sshfs, spec.remote, spec.mountpointStr] ++
      opts.flatMap (fun o => ["-o", o]))

/-- `sshfsman.py` `do_mount`: `.ok ()` is a successful mount, `.error (m, c)`
is a `die`/uncaught failure with message `m` and exit status `c` (a failing
helper raises `CalledProcessError`, which the script does not catch: status
1). -/
def do_mount (sys : LegacySys) (spec : MountSpec) : Except (String × Int) Unit :=
  match ensure_tools sys spec.password spec.non_interactive with
  | .error e => .error e
  | .ok (sshfs, _) =>
    if is_mounted sys.before spec.mountpointStr then
      .error ("already mounted: " ++ spec.mountpointStr, 2)
    else
      match build_sshfs_cmd sys sshfs spec with
      | .error e => .error e
      | .ok _cmd =>
        if spec.password && !spec.non_interactive && !sys.stdinTty then
          .error
            ("password mode requires a TTY (or use --non-interactive + SSHFSMAN_PASSWORD)", 2)
        else if sys.runExit ≠ 0 then
          .error ("sshfs command failed", 1)
        else if !is_mounted sys.after spec.mountpointStr then
          .error ("mount command succeeded but mount not detected at " ++ spec.mountpointStr, 1)
        else .ok ()

/-- Concrete legacy mount request for the C4 counterexample. -/
def legacySpec : MountSpec :=
  { identifier := "Android", remote := "u@h:/d", port := none, mount_root := "/mnt/sshfs",
    allow_other := false, password := false, non_interactive := false, extra_opts := [] }

/-- Concrete legacy environment where the target is already mounted. -/
def legacySysMounted : LegacySys :=
  { sshfs := some "sshfs", fusermount := some "fusermount3", sshpass := false,
    envPassword := none, stdinTty := true,
    before := ⟨some ["u@h:/d /mnt/sshfs/Android fuse.sshfs rw,nosuid 0 0"], none⟩,
    after := ⟨some [], none⟩, runExit := 0 }

/-- C4 counterexample: the legacy script's `do_mount` (sshfsman.py lines
173-174) treats an already-mounted target as an error — `die` with exit
status 2 — not as a successful no-op. -/
theorem C4_counterexample :
    do_mount legacySysMounted legacySpec = .error ("already mounted: /mnt/sshfs/Android", 2) :=
  rfl

/-- C4 (amended): in the CLI's `cmd_mount`, when the pre-mount oracle
reports the target already mounted, the command prints the already-mounted
status and returns success (exit 0) without ever invoking the mount helper.
(The legacy script instead exits with an error: see the counterexample.) -/
theorem C4_cli_already_mounted (sys : MountSys) (cfg : AppConfig) (args : MountArgs)
    (hpre : sys.preMounted = .ok true)
    (hreach : ∃ b, MountEv.checkedMounted b ∈ (cmd_mount sys cfg args).events) :
    (cmd_mount sys cfg args).res = .ok 0 ∧
    ∀ c, MountEv.ranHelper c ∉ (cmd_mount sys cfg args).events := by
  rcases cmd_mount_shape sys cfg args with hnil | ⟨evs0, rest, hev, _, h0, _, hfin⟩
  · obtain ⟨b, hb⟩ := hreach
    rw [hnil] at hb
    exact absurd hb (List.not_mem_nil _)
  · obtain ⟨hrest, hres⟩ := hfin hpre
    subst hrest
    refine ⟨hres, fun c hc => ?_⟩
    rw [hev] at hc
    rcases List.mem_append.mp hc with hc | hc
    · have := h0 _ hc
      simp [isRanEv] at this
    · simp at hc

/-- C4 witness: a concrete already-mounted run of `cmd_mount` returning
success with no helper invocation. -/
theorem C4_witness :
    (cmd_mount ⟨id, .ok true, 0, .ok true⟩ ⟨["mnt", "sshfs"], none, []⟩
      { remote := some "u@h:/d" }).res = .ok 0 ∧
    ∀ c, MountEv.ranHelper c ∉ (cmd_mount ⟨id, .ok true, 0, .ok true⟩
      ⟨["mnt", "sshfs"], none, []⟩ { remote := some "u@h:/d" }).events :=
  C4_cli_already_mounted _ _ _ rfl ⟨true, by decide⟩

/-- C5 counterexample: with `--create-shortcut` and a failing helper, the
run fails but the configuration write is already in the trace — the
shortcut is persisted before the mount is confirmed, so "the configuration
file is left unchanged on failure" is false. -/
theorem C5_counterexample :
    ((cmd_mount ⟨id, .ok false, 1, .ok false⟩ ⟨["mnt", "sshfs"], none, []⟩
        { remote := some "u@h:/d", create_shortcut := some "phone" }).events.any isWroteEv)
      = true ∧
    resIsOk (cmd_mount ⟨id, .ok false, 1, .ok false⟩ ⟨["mnt", "sshfs"], none, []⟩
        { remote := some "u@h:/d", create_shortcut := some "phone" }).res = false :=
  ⟨rfl, rfl⟩

lemma dropWhile_all_of_partition (evs0 rest : List MountEv)
    (h0 : ∀ e ∈ evs0, isRanEv e = false)
    (hr : ∀ e ∈ rest, isWroteEv e = false) :
    (((evs0 ++ rest).dropWhile (fun e => !isRanEv e)).all (fun e => !isWroteEv e)) = true := by
  induction evs0 with
  | nil =>
    simp only [List.nil_append]
    rw [List.all_eq_true]
    intro e he
    have hmem : e ∈ rest := (List.dropWhile_suffix _).sublist.subset he
    simp [hr e hmem]
  | cons a as ih =>
    have ha : isRanEv a = false := h0 a (by simp)
    rw [List.cons_append, List.dropWhile_cons]
    simp only [ha, Bool.not_false, if_true]
    exact ih (fun e he => h0 e (by simp [he]))

/-- C5 (amended): when persisting a shortcut is requested, the shortcut map
update and configuration rewrite happen before the mount attempt, not after
confirmation: every config write in the trace precedes every helper
invocation, and whenever the run reached the mount guard with
`--create-shortcut` given, the write is in the trace even if the helper or
the verification subsequently failed. -/
theorem C5_config_write_order (sys : MountSys) (cfg : AppConfig) (args : MountArgs) :
    ((((cmd_mount sys cfg args).events.dropWhile (fun e => !isRanEv e)).all
      (fun e => !isWroteEv e)) = true) ∧
    (truthy args.create_shortcut = true →
      (∃ b, MountEv.checkedMounted b ∈ (cmd_mount sys cfg args).events) →
      ∃ c2, MountEv.wroteConfig c2 ∈ (cmd_mount sys cfg args).events) := by
  rcases cmd_mount_shape sys cfg args with hnil | ⟨evs0, rest, hev, hw, h0, hr, _⟩
  · rw [hnil]
    refine ⟨rfl, fun _ hreach => ?_⟩
    obtain ⟨b, hb⟩ := hreach
    exact absurd hb (List.not_mem_nil _)
  · constructor
    · rw [hev]
      exact dropWhile_all_of_partition evs0 rest h0 hr
    · intro hcs hreach
      rcases hw with ⟨_, hfalse⟩ | ⟨_, c2, hevs0⟩
      · rw [hcs] at hfalse
        exact absurd hfalse (by simp)
      · exact ⟨c2, by rw [hev, hevs0]; simp⟩

/-- C5 witness: the write-before-helper ordering and the
write-despite-failure fact, evaluated on the concrete failing-helper run of
the counterexample. -/
theorem C5_witness :
    ((((cmd_mount ⟨id, .ok false, 1, .ok false⟩ ⟨["mnt", "sshfs"], none, []⟩
        { remote := some "u@h:/d", create_shortcut := some "phone" }).events.dropWhile
          (fun e => !isRanEv e)).all (fun e => !isWroteEv e)) = true) ∧
    ∃ c2, MountEv.wroteConfig c2 ∈ (cmd_mount ⟨id, .ok false, 1, .ok false⟩
      ⟨["mnt", "sshfs"], none, []⟩
      { remote := some "u@h:/d", create_shortcut := some "phone" }).events :=
  ⟨(C5_config_write_order _ _ _).1,
   (C5_config_write_order ⟨id, .ok false, 1, .ok false⟩ ⟨["mnt", "sshfs"], none, []⟩
      { remote := some "u@h:/d", create_shortcut := some "phone" }).2 (by decide)
      ⟨false, by decide⟩⟩

/-! ### `cmd_unmount_all` processing order (`cli.py` line 823) -/

/-- The sort key of `cmd_unmount_all`: `(len(str(p)), str(p))`. -/
def pathKey (s : String) : ℕ ×ₗ String := toLex (s.length, s)

/-- `a` is ordered no later than `b` by Python's
`sorted(..., key=..., reverse=True)`: `a`'s key is at least `b`'s. -/
def unmountBefore (a b : String) : Prop := pathKey b ≤ pathKey a

instance : DecidableRel unmountBefore := fun a b =>
  inferInstanceAs (Decidable (pathKey b ≤ pathKey a))

instance : IsTotal String unmountBefore :=
  ⟨fun a b => le_total (pathKey b) (pathKey a)⟩

instance : IsTrans String unmountBefore :=
  ⟨fun _ _ _ h1 h2 => le_trans h2 h1⟩

/-- Line 823 of `cli.py` `cmd_unmount_all`:
`targets = sorted(set(targets), key=lambda p: (len(str(p)), str(p)), reverse=True)`;
the loop then processes the result front to back. -/
def order_unmount_targets (targets : List String) : List String :=
  List.insertionSort unmountBefore targets.dedup

/-- `a` is a proper string prefix of `b` (an ancestor path rendered as a
string is a proper prefix of each of its descendants). -/
def properStringPrefix (a b : String) : Prop := a.data <+: b.data ∧ a ≠ b

lemma pathKey_inj {a b : String} (h : pathKey a = pathKey b) : a = b := by
  have h2 := congrArg (fun x => (ofLex x).2) h
  simpa [pathKey] using h2

/-- C10: `cmd_unmount_all` deduplicates the enumerated targets and
processes them in strictly decreasing order of path-string length, ties
broken by reverse lexicographic order; consequently no element is a proper
string prefix of a later one, so a nested mount is always handled before
any of its ancestors. -/
theorem C10_unmount_all_order (ts : List String) :
    (order_unmount_targets ts).Nodup ∧
    (∀ x, x ∈ order_unmount_targets ts ↔ x ∈ ts) ∧
    (order_unmount_targets ts).Pairwise (fun a b => pathKey b < pathKey a) ∧
    (order_unmount_targets ts).Pairwise (fun a b => ¬properStringPrefix a b) := by
  have hperm := List.perm_insertionSort unmountBefore ts.dedup
  have hsorted : (order_unmount_targets ts).Pairwise unmountBefore :=
    List.sorted_insertionSort unmountBefore ts.dedup
  have hnd : (order_unmount_targets ts).Nodup := hperm.nodup_iff.mpr (List.nodup_dedup ts)
  have hstrict : (order_unmount_targets ts).Pairwise (fun a b => pathKey b < pathKey a) := by
    have hcomb := hsorted.and hnd
    refine hcomb.imp ?_
    intro a b hab
    exact lt_of_le_of_ne hab.1 (fun he => hab.2 (pathKey_inj he).symm)
  refine ⟨hnd, ?_, hstrict, ?_⟩
  · intro x
    rw [order_unmount_targets, hperm.mem_iff, List.mem_dedup]
  · refine hstrict.imp ?_
    intro a b hab hpp
    obtain ⟨hpre, hne⟩ := hpp
    have hlen : a.data.length ≤ b.data.length := hpre.length_le
    have hlen2 : a.length ≤ b.length := hlen
    rcases (Prod.Lex.lt_iff _ _).mp hab with hl | ⟨heq, _⟩
    · have hab2 : b.length < a.length := hl
      omega
    · have heq2 : b.length = a.length := heq
      have hlene : a.data.length = b.data.length := by
        show a.length = b.length
        omega
      exact hne (String.ext (hpre.eq_of_length hlene))

end Sshfsman
